import Mathlib

/-!
Verification of the API test portal core (src/src/App.jsx).

The development shallowly embeds the data-transformation core of the
application: the CSV codec (parseCSV / parseLine / escapeCsv and the
serialization inside downloadBatchResults), the schema flattener
(extractFieldsFromSchema), the endpoint catalog builder (handleSpecParse),
the request-body construction and outcome normalization of executeRequest,
and the batch runner (runBatchTest).

Strings are modelled as lists of characters in the CSV layer (JS iterates
strings code unit by code unit); JS objects are modelled as association
lists in insertion order, with assignment overwriting an existing key in
place (objSet) and lookup returning the value of the unique key (objGet).
-/

namespace ApiTestPortal

/-- Whitespace as trimmed by String.prototype.trim for the character set
relevant here (space, tab, carriage return, line feed). -/
def isWsChar (c : Char) : Bool :=
  c == ' ' || c == '\t' || c == '\r' || c == '\n'

/-- Left trim: drop leading whitespace. -/
def trimLeft (l : List Char) : List Char := l.dropWhile isWsChar

/-- JS String.prototype.trim: drop leading and trailing whitespace. -/
def trimChars (l : List Char) : List Char :=
  ((trimLeft l).reverse.dropWhile isWsChar).reverse

/-- One step of the regex replace /^"|"$/g: remove a single leading quote. -/
def dropLeadingQuote : List Char → List Char
  | [] => []
  | c :: rest => if c = '"' then rest else c :: rest

/-- The regex replace /^"|"$/g from parseCSV: remove one leading and one
trailing double quote. -/
def stripOuterQuotes (l : List Char) : List Char :=
  ((dropLeadingQuote l).reverse |> dropLeadingQuote).reverse

/-- The regex replace /""/g → single quote from parseCSV: collapse each
non-overlapping doubled quote, scanning left to right. -/
def unescapeQuotes : List Char → List Char
  | [] => []
  | [c] => [c]
  | c1 :: c2 :: rest =>
    if c1 = '"' ∧ c2 = '"' then '"' :: unescapeQuotes rest
    else c1 :: unescapeQuotes (c2 :: rest)

/-- Cell cleanup applied by parseLine when a cell ends (App.jsx lines 43
and 50): current.trim().replace(/^"|"$/g, '').replace(/""/g, '"'). -/
def cleanCell (current : List Char) : List Char :=
  unescapeQuotes (stripOuterQuotes (trimChars current))

/-- The character scan of parseLine (App.jsx lines 32-52).  A quote toggles
the in-quote flag and is not added to the cell; a comma outside quotes ends
the cell; anything else is appended to the current cell. -/
def parseLineAux : List Char → Bool → List Char → List (List Char)
  | [], _, current => [cleanCell current]
  | c :: rest, inQuote, current =>
    if c = '"' then parseLineAux rest (!inQuote) current
    else if c = ',' ∧ inQuote = false then
      cleanCell current :: parseLineAux rest inQuote []
    else parseLineAux rest inQuote (current ++ [c])

/-- parseLine from App.jsx: tokenize one CSV line. -/
def parseLine (line : List Char) : List (List Char) :=
  parseLineAux line false []

/-- JS String.prototype.split(sep) for a one-character separator: split at
every occurrence, keeping empty pieces. -/
def splitChar (sep : Char) : List Char → List (List Char)
  | [] => [[]]
  | c :: rest =>
    if c = sep then [] :: splitChar sep rest
    else (splitChar sep rest).modifyHead (fun l => c :: l)

/-- text.split('\n') from parseCSV. -/
def splitNl (text : List Char) : List (List Char) := splitChar '\n' text

/-- text.split('\n').filter(l => l.trim()) from parseCSV (line 28). -/
def csvLines (text : List Char) : List (List Char) :=
  (splitNl text).filter (fun l => !(trimChars l).isEmpty)

/-- JS object assignment obj[k] = v on an insertion-ordered object:
overwrite the existing entry in place, otherwise append. -/
def objSet {κ α : Type} [DecidableEq κ] : List (κ × α) → κ → α → List (κ × α)
  | [], k, v => [(k, v)]
  | (k', v') :: rest, k, v =>
    if k' = k then (k, v) :: rest else (k', v') :: objSet rest k v

/-- JS object read obj[k]: the value stored at the key, if any. -/
def objGet {κ α : Type} [DecidableEq κ] : List (κ × α) → κ → Option α
  | [], _ => none
  | (k', v') :: rest, k => if k' = k then some v' else objGet rest k

/-- A parsed CSV row: header name → cell text, in insertion order. -/
abbrev CsvRow := List (List Char × List Char)

/-- Key cleanup from parseCSV line 63: h.replace(/^"|"$/g, '').trim()
(strip first, then trim — the opposite order of the cell cleanup). -/
def cleanKey (h : List Char) : List Char :=
  trimChars (stripOuterQuotes h)

/-- The headers.forEach of parseCSV (lines 60-65): assign obj[cleanKey h] =
values[i] || '' positionally; a missing cell becomes the empty string. -/
def buildRowObj : List (List Char) → List (List Char) → CsvRow → CsvRow
  | [], _, obj => obj
  | h :: hs, vs, obj =>
    buildRowObj hs vs.tail (objSet obj (cleanKey h) (vs.headD []))

/-- The body of parseCSV once the non-blank lines are known: the first line
is the header row, each remaining line becomes one row object. -/
def parseRows : List (List Char) → List CsvRow
  | [] => []
  | first :: rest =>
    rest.map (fun line => buildRowObj (parseLine first) (parseLine line) [])

/-- parseCSV from App.jsx (lines 27-68): split into non-blank lines, parse
the first as the header row, build one row object per remaining line. -/
def parseCSV (text : List Char) : List CsvRow :=
  parseRows (csvLines text)

/-- The replace(/"/g, '""') inside escapeCsv. -/
def doubleQuotes : List Char → List Char
  | [] => []
  | c :: rest =>
    if c = '"' then '"' :: '"' :: doubleQuotes rest
    else c :: doubleQuotes rest

/-- escapeCsv from downloadBatchResults (lines 425-433).  null/undefined
(modelled as none) becomes the empty string; a value containing a quote,
comma or newline is wrapped in quotes with inner quotes doubled. -/
def escapeCsv : Option (List Char) → List Char
  | none => []
  | some v =>
    if '"' ∈ v ∨ ',' ∈ v ∨ '\n' ∈ v then '"' :: (doubleQuotes v ++ ['"'])
    else v

/-- Array.prototype.join for a one-character separator. -/
def joinSep (sep : Char) : List (List Char) → List Char
  | [] => []
  | [l] => l
  | l :: rest => l ++ sep :: joinSep sep rest

/-- row.join(',') over cells. -/
def joinComma (cells : List (List Char)) : List Char := joinSep ',' cells

/-- The csvContent construction of downloadBatchResults (lines 420-438),
specialised to rows of string cells: the header line is the key set of the
first row joined unescaped; each data row maps the headers through escapeCsv
of the row's value at that header; lines are newline-joined.  Empty input
is a no-op (the function returns early). -/
def csvContent (rows : List CsvRow) : List Char :=
  match rows with
  | [] => []
  | first :: _ =>
    let headers := first.map Prod.fst
    joinSep '\n'
      (joinComma headers ::
        rows.map (fun row => joinComma (headers.map (fun h => escapeCsv (objGet row h)))))

/-! ## Schema flattener and endpoint catalog (handleSpecParse, extractFieldsFromSchema) -/

/-- JS truthy-or for strings: s1 || s2 where the empty string is falsy and
an absent value (undefined) is falsy. -/
def jsOrS : Option String → String → String
  | some s, d => if s = "" then d else s
  | none, d => d

/-- JS truthy-or for object-valued expressions: an object is always truthy,
only undefined falls through. -/
def jsOrObj {α : Type} : Option α → Option α → Option α
  | some a, _ => some a
  | none, b => b

/-- JS truthiness of an optional string: if (s) — undefined and the empty
string are falsy. -/
def jsTruthyStr : Option String → Option String
  | some s => if s = "" then none else some s
  | none => none

/-- Model of String.prototype.toLowerCase (ASCII range, which covers the
HTTP verbs compared against it). -/
def toLowerStr (s : String) : String := ⟨s.data.map Char.toLower⟩

/-- One property of a schema's properties object. -/
structure SchemaProp where
  type : Option String
  description : Option String
deriving DecidableEq

/-- A named schema definition (an entry of definitions / components.schemas). -/
structure SchemaDef where
  properties : Option (List (String × SchemaProp))
  required : Option (List String)
deriving DecidableEq

/-- A request-body schema: either a $ref string or inline properties. -/
structure Schema where
  ref : Option String
  properties : Option (List (String × SchemaProp))
  required : Option (List String)
deriving DecidableEq

/-- One flattened body field as produced by extractFieldsFromSchema. -/
structure BodyField where
  name : String
  type : String
  required : Bool
  description : String
deriving DecidableEq

/-- schema.$ref.split('/').pop(): the last slash-separated segment. -/
def lastSegment (r : String) : String := ⟨(splitChar '/' r.data).getLastD []⟩

/-- extractFieldsFromSchema from App.jsx (lines 71-94).  A truthy $ref is
resolved one level through the definitions mapping (unresolved refs give no
properties); otherwise properties/required are read off the schema itself;
each property key yields a field with type defaulting to "string". -/
def extractFieldsFromSchema (schema : Option Schema)
    (definitions : Option (List (String × SchemaDef))) : List BodyField :=
  match schema with
  | none => []
  | some s =>
    let pr : List (String × SchemaProp) × List String :=
      match jsTruthyStr s.ref with
      | some r =>
        match definitions with
        | some defs =>
          match objGet defs (lastSegment r) with
          | some d => (d.properties.getD [], d.required.getD [])
          | none => ([], [])
        | none => ([], [])
      | none => (s.properties.getD [], s.required.getD [])
    pr.1.map (fun kp =>
      { name := kp.1
        type := jsOrS kp.2.type "string"
        required := pr.2.contains kp.1
        description := jsOrS kp.2.description "" })

/-- One entry of an operation's parameters array; the source reads its
name and its location key in (path | query). -/
structure Param where
  name : String
  «in» : Option String
  required : Option Bool
  description : Option String
deriving DecidableEq

/-- One media-type entry under requestBody.content. -/
structure MediaObject where
  schema : Option Schema
deriving DecidableEq

/-- requestBody of an operation: content keyed by media type. -/
structure RequestBody where
  content : Option (List (String × MediaObject))
deriving DecidableEq

/-- One operation object (the value under a method key of a path). -/
structure Operation where
  summary : Option String
  operationId : Option String
  parameters : Option (List Param)
  requestBody : Option RequestBody
deriving DecidableEq

/-- The components object of an OpenAPI v3 document. -/
structure Components where
  schemas : Option (List (String × SchemaDef))
deriving DecidableEq

/-- A parsed spec document as handleSpecParse consumes it: the result of
JSON.parse on the pasted text.  Objects are insertion-ordered association
lists; info is opaque metadata. -/
structure SpecDoc where
  info : Option String
  paths : Option (List (String × List (String × Operation)))
  definitions : Option (List (String × SchemaDef))
  components : Option Components
deriving DecidableEq

/-- One endpoint descriptor pushed by handleSpecParse (lines 250-258). -/
structure Endpoint where
  id : String
  path : String
  method : String
  summary : String
  parameters : List Param
  requestBody : Option RequestBody
  definitions : Option (List (String × SchemaDef))
deriving DecidableEq

/-- The recognized verb set of the catalog builder (line 248). -/
def recognizedVerbs : List String := ["get", "post", "put", "delete", "patch"]

/-- The endpoint record pushed for one (path, method) pair (lines 250-258):
id is method-path; summary falls back to operationId then the path;
parameters default to []; definitions prefer the legacy location and fall
back to components.schemas. -/
def mkEndpoint (json : SpecDoc) (path : String) (method : String)
    (details : Operation) : Endpoint :=
  { id := method ++ "-" ++ path
    path := path
    method := method
    summary := jsOrS details.summary (jsOrS details.operationId path)
    parameters := details.parameters.getD []
    requestBody := details.requestBody
    definitions := jsOrObj json.definitions
      (match json.components with
       | some c => c.schemas
       | none => none) }

/-- The nested forEach of handleSpecParse (lines 246-261): for every path
key, for every method key under it whose lowercase form is a recognized
verb, push one endpoint descriptor, in document order. -/
def buildEndpoints (json : SpecDoc) : List Endpoint :=
  (json.paths.getD []).flatMap (fun pe =>
    (pe.2.filter (fun mo => recognizedVerbs.contains (toLowerStr mo.1))).map
      (fun mo => mkEndpoint json pe.1 mo.1 mo.2))

/-- The parsedSpec state value set on a successful import (line 263). -/
structure ParsedSpec where
  info : Option String
  endpoints : List Endpoint
deriving DecidableEq

/-- The slice of component state handleSpecParse touches. -/
structure AppState where
  parsedSpec : Option ParsedSpec
  error : String
  activeTab : String
deriving DecidableEq

/-- The message of the error thrown when the document has no paths
(line 242). -/
def missingPathsMessage : String :=
  "Invalid OpenAPI/Swagger Spec: Missing \x27paths\x27"

/-- handleSpecParse from App.jsx (lines 237-269) as a state transition.
The argument models the outcome of JSON.parse on the pasted text: .error
carries the parser's thrown message.  A malformed document or one without
paths only sets the error message; a valid document replaces the catalog,
clears the error and switches to the manual tab. -/
def handleSpecParse (parseResult : Except String SpecDoc) (st : AppState) :
    AppState :=
  match parseResult with
  | .error msg => { st with error := msg }
  | .ok json =>
    match json.paths with
    | none => { st with error := missingPathsMessage }
    | some _ =>
      { parsedSpec := some ⟨json.info, buildEndpoints json⟩
        error := ""
        activeTab := "manual" }

/-! ## Request executor (executeRequest) -/

/-- JSON values as returned by response.json(); numbers are modelled as
integers (no claim depends on numeric rendering). -/
inductive Json : Type
  | null : Json
  | bool (b : Bool) : Json
  | num (n : Int) : Json
  | str (s : String) : Json
  | arr (items : List Json) : Json
  | obj (fields : List (String × Json)) : Json

/-- Escaping inside JSON.stringify for quotes, backslashes and newlines. -/
def jsonEscapeChar (c : Char) : List Char :=
  if c = '"' then ['\\', '"']
  else if c = '\\' then ['\\', '\\']
  else if c = '\n' then ['\\', 'n']
  else [c]

/-- A JSON string literal as emitted by JSON.stringify. -/
def jsonQuote (s : String) : String :=
  ⟨'"' :: (s.data.flatMap jsonEscapeChar ++ ['"'])⟩

mutual

/-- Model of JSON.stringify on a JSON value. -/
def Json.stringify : Json → String
  | .null => "null"
  | .bool true => "true"
  | .bool false => "false"
  | .num n => toString n
  | .str s => jsonQuote s
  | .arr items => "[" ++ stringifyItems items ++ "]"
  | .obj fields => "\x7b" ++ stringifyFields fields ++ "\x7d"

/-- Comma-joined array items for Json.stringify. -/
def stringifyItems : List Json → String
  | [] => ""
  | [x] => Json.stringify x
  | x :: rest => Json.stringify x ++ "," ++ stringifyItems rest

/-- Comma-joined key:value pairs for Json.stringify. -/
def stringifyFields : List (String × Json) → String
  | [] => ""
  | [kv] => jsonQuote kv.1 ++ ":" ++ Json.stringify kv.2
  | kv :: rest => jsonQuote kv.1 ++ ":" ++ Json.stringify kv.2 ++ "," ++ stringifyFields rest

end

/-- typeof j === 'object' for a parsed JSON value (true for null, arrays
and objects). -/
def Json.typeofObject : Json → Bool
  | .null => true
  | .arr _ => true
  | .obj _ => true
  | _ => false

/-- JS String(j) for the primitive (non-object) JSON values. -/
def Json.primString : Json → String
  | .bool true => "true"
  | .bool false => "false"
  | .num n => toString n
  | .str s => s
  | j => Json.stringify j

/-- The response body held in an outcome: parsed JSON, or raw text when
JSON parsing failed (and the error message text on transport failure). -/
inductive BodyData : Type
  | json (j : Json) : BodyData
  | text (s : String) : BodyData

/-- The outcome record returned by executeRequest (lines 346-360).
isNetworkError is absent (falsy) on the completed-response path, modelled
as false. -/
structure Outcome where
  success : Bool
  status : Nat
  time : Nat
  data : BodyData
  isNetworkError : Bool

/-- A completed HTTP response as the executor observes it: its status code,
whether the fetch response has no body stream at all (fetch gives a null
body for 204/205/304 and HEAD responses), and the body text ("" when the
body is null). -/
structure HttpResponse where
  status : Nat
  bodyNull : Bool
  body : String

/-- Response.ok of the fetch API: status in the range 200-299. -/
def responseOk (r : HttpResponse) : Bool :=
  200 ≤ r.status && r.status ≤ 299

/-- The request-body field names resolved by executeRequest (lines 319-324):
the flattened names of requestBody.content['application/json'].schema, or
none when no such schema exists. -/
def bodyFieldNames (endpoint : Endpoint) : List String :=
  let schema : Option Schema :=
    match endpoint.requestBody with
    | some rb =>
      match rb.content with
      | some content =>
        match objGet content "application/json" with
        | some media => media.schema
        | none => none
      | none => none
    | none => none
  match schema with
  | some s =>
    (extractFieldsFromSchema (some s) endpoint.definitions).map BodyField.name
  | none => []

/-- The key filter of the body construction (line 327): keep a data key iff
it is not a declared parameter name (the source collects every parameter
name, path and query alike, into pathParams) and either no body fields were
resolved or the key is among them. -/
def bodyKeyAllowed (endpoint : Endpoint) (key : String) : Bool :=
  !((endpoint.parameters.map Param.name).contains key) &&
    ((bodyFieldNames endpoint).isEmpty || (bodyFieldNames endpoint).contains key)

/-- Step 3 of executeRequest (lines 313-332): only for a method that is
exactly one of the lowercase strings post/put/patch and a present
requestBody is a JSON body built, by copying the allowed keys of the value
mapping in order; otherwise no body is attached. -/
def executeRequestBody (endpoint : Endpoint) (data : List (String × String)) :
    Option (List (String × String)) :=
  if ["post", "put", "patch"].contains endpoint.method
      && endpoint.requestBody.isSome then
    some (data.foldl
      (fun acc kv => if bodyKeyAllowed endpoint kv.1 then objSet acc kv.1 kv.2 else acc)
      [])
  else none

/-- The TypeError message thrown by res.text() when the body stream was
already consumed by the failed res.json() (exact wording is
environment-defined; Chromium's is modelled). -/
def bodyStreamReadMessage : String :=
  "Failed to execute \x27text\x27 on \x27Response\x27: body stream already read"

/-- The try/catch around the network call in executeRequest (lines 334-361).
fetchResult models await fetch: a completed response or a thrown transport
error message; tryJson models JSON.parse inside res.json(), returning none
when the text is not valid JSON.  Per the fetch streams semantics, calling
res.json() consumes the body stream even when parsing then fails, so the
res.text() in the inner catch (line 343) rejects with a TypeError for every
response that has a body; that exception escapes to the outer catch, which
returns status 0 with the isNetworkError flag.  Only a response with a null
body (whose stream was never disturbed) reaches the raw-text fallback, with
the empty string.  A thrown transport error likewise yields status 0,
success false and the isNetworkError flag. -/
def executeRequestOutcome (tryJson : String → Option Json) (elapsed : Nat)
    (fetchResult : Except String HttpResponse) : Outcome :=
  match fetchResult with
  | .ok res =>
    if res.bodyNull then
      { success := responseOk res
        status := res.status
        time := elapsed
        data := .text ""
        isNetworkError := false }
    else
      match tryJson res.body with
      | some j =>
        { success := responseOk res
          status := res.status
          time := elapsed
          data := .json j
          isNetworkError := false }
      | none =>
        { success := false
          status := 0
          time := 0
          data := .text bodyStreamReadMessage
          isNetworkError := true }
  | .error msg =>
    { success := false
      status := 0
      time := 0
      data := .text msg
      isNetworkError := true }

/-! ## Batch runner (runBatchTest) -/

/-- A cell of a batch result row: the spread CSV columns are strings, the
computed row index and status are numbers. -/
inductive CellV : Type
  | n (v : Nat) : CellV
  | s (v : String) : CellV
deriving DecidableEq

/-- The _response column (line 410): JSON.stringify for object-typed data,
String(...) otherwise; a raw-text body is already a string. -/
def responseString : BodyData → String
  | .json j => if j.typeofObject then j.stringify else j.primString
  | .text s => s

/-- The resultRow object literal of runBatchTest (lines 404-411): _rowIndex
is assigned first, then every key of the CSV row is spread over it (a CSV
column named _rowIndex therefore overwrites the computed index), then
_status, _success and _response are assigned last. -/
def mkResultRow (i : Nat) (row : List (String × String)) (result : Outcome) :
    List (String × CellV) :=
  let base : List (String × CellV) := objSet [] "_rowIndex" (CellV.n (i + 1))
  let withRow := row.foldl (fun acc kv => objSet acc kv.1 (CellV.s kv.2)) base
  let r1 := objSet withRow "_status" (CellV.n result.status)
  let r2 := objSet r1 "_success" (CellV.s (if result.success then "PASS" else "FAIL"))
  objSet r2 "_response" (CellV.s (responseString result.data))

/-- Fuelled binary logarithm (⌊log2 n⌋ for n ≥ 1); the fuel only bounds the
recursion and n units always suffice. -/
def natLog2F : Nat → Nat → Nat
  | 0, _ => 0
  | fuel + 1, n => if n ≤ 1 then 0 else 1 + natLog2F fuel (n / 2)

/-- ⌊log2 n⌋ for n ≥ 1. -/
def natLog2 (n : Nat) : Nat := natLog2F n n

/-- Round num/den (den > 0) to the nearest integer, ties to even — the
IEEE-754 default rounding applied to a significand. -/
def rnePos (num den : Nat) : Nat :=
  if 2 * (num % den) < den then num / den
  else if den < 2 * (num % den) then num / den + 1
  else if (num / den) % 2 = 0 then num / den else num / den + 1

/-- Whether a/b < 2^e for positive naturals a, b, by cross-multiplication. -/
def ltPow2 (a b : Nat) : Int → Bool
  | .ofNat m => decide (a < b * 2 ^ m)
  | .negSucc m => decide (a * 2 ^ (m + 1) < b)

/-- ⌊log2 (a/b)⌋ for a, b ≥ 1: the binary exponent of the quotient. -/
def floorLog2 (a b : Nat) : Int :=
  if ltPow2 a b ((natLog2 a : Int) - (natLog2 b : Int))
  then (natLog2 a : Int) - (natLog2 b : Int) - 1
  else (natLog2 a : Int) - (natLog2 b : Int)

/-- Round the positive rational a/b to the nearest IEEE-754 binary64 value
(53-bit significand, round to nearest, ties to even), returned exactly as a
pair (m, e) whose value is m * 2^(e-52).  The exponent is unbounded, so
overflow and subnormal rounding are not modelled; for magnitudes inside the
normal double range — every value the progress computation can produce —
this agrees exactly with binary64. -/
def roundDoublePos (a b : Nat) : Nat × Int :=
  (match 52 - floorLog2 a b with
   | .ofNat s => rnePos (a * 2 ^ s) b
   | .negSucc s => rnePos a (b * 2 ^ (s + 1)), floorLog2 a b)

/-- The JS number multiplication d * 100 on a nonnegative double (m, e):
the exact product rounded back to binary64. -/
def doubleMul100 (d : Nat × Int) : Nat × Int :=
  match d.2 - 52 with
  | .ofNat s => roundDoublePos (d.1 * 100 * 2 ^ s) 1
  | .negSucc s => roundDoublePos (d.1 * 100) (2 ^ (s + 1))

/-- Math.round per the ECMAScript spec on a nonnegative double (m, e): the
integer closest to its exact value m * 2^(e-52), ties toward positive
infinity — ⌊x + 1/2⌋ evaluated exactly. -/
def mathRoundPos (d : Nat × Int) : Nat :=
  match d.2 - 52 with
  | .ofNat s => d.1 * 2 ^ s
  | .negSucc s => (2 * d.1 + 2 ^ (s + 1)) / (2 ^ (s + 1) * 2)

/-- Math.round(((i + 1) / batchData.length) * 100) at line 415: the binary64
division k/n, the binary64 multiplication by 100, then Math.round.  The
float product can land just below a half-integer that the exact rational
reaches: for k = 23, n = 40 the product is 57.49999999999999…, so the
program publishes 57 where exact rounding of 57.5 would give 58.  (k = 0
never occurs — indices start at 1 — and n = 0 never reaches this code.) -/
def jsRound100 (k n : Nat) : Nat :=
  if k = 0 ∨ n = 0 then 0
  else mathRoundPos (doubleMul100 (roundDoublePos k n))

/-- The loop of runBatchTest (lines 400-416).  exec i is the outcome of
executing row i (the executor's result is arbitrary here); each iteration
emits its result row together with the progress percentage published after
it. -/
def runBatchAux (exec : Nat → Outcome) (n : Nat) :
    Nat → List (List (String × String)) → List (List (String × CellV) × Nat)
  | _, [] => []
  | i, row :: rest =>
    (mkResultRow i row (exec i), jsRound100 (i + 1) n) ::
      runBatchAux exec n (i + 1) rest

/-- runBatchTest from App.jsx (lines 394-418): drive the executor
sequentially over the rows, from index 0, publishing progress after each. -/
def runBatchTest (exec : Nat → Outcome) (rows : List (List (String × String))) :
    List (List (String × CellV) × Nat) :=
  runBatchAux exec rows.length 0 rows

/-! ## Auxiliary definitions used by the theorems -/

/-- A cell value as the parser emits it: no quote, no newline, trimmed. -/
def CleanVal (v : List Char) : Prop :=
  '"' ∉ v ∧ '\n' ∉ v ∧ trimChars v = v

/-- Helper for reconstruction: the pairs buildRowObj appends when every key
is fresh. -/
def mkPairs : List (List Char) → List (List Char) → CsvRow
  | [], _ => []
  | k :: ks, vs => (cleanKey k, vs.headD []) :: mkPairs ks vs.tail

/-- A spec document whose single operation uses the uppercase method key
POST, as the source document may (the catalog filter is case-insensitive). -/
def docUppercasePost : SpecDoc :=
  { info := none
    paths := some [("/users",
      [("POST", { summary := some "create", operationId := none,
                  parameters := none,
                  requestBody := some { content := none } })])]
    definitions := none
    components := none }

/-- An endpoint whose single declared parameter is a query parameter named
q, with a requestBody whose schema is unknown (no fields resolve). -/
def epQueryParam : Endpoint :=
  { id := "post-/x", path := "/x", method := "post", summary := "s"
    parameters := [⟨"q", some "query", none, none⟩]
    requestBody := some { content := none }
    definitions := none }

/-- The endpoint of claim C4's concrete scenario: body schema with fields
name and age, one path parameter id. -/
def epNameAge : Endpoint :=
  { id := "post-/users/id", path := "/users/(id)", method := "post", summary := "s"
    parameters := [⟨"id", some "path", some true, none⟩]
    requestBody := some { content := some [("application/json",
      { schema := some { ref := none,
                         properties := some [("name", ⟨some "string", none⟩),
                                             ("age", ⟨some "integer", none⟩)],
                         required := some ["name"] } })] }
    definitions := none }

/-! ## Association-list lemmas (JS object semantics) -/

theorem objGet_objSet {κ α : Type} [DecidableEq κ] (l : List (κ × α)) (k k' : κ)
    (v : α) :
    objGet (objSet l k v) k' = if k = k' then some v else objGet l k' := by
  induction l with
  | nil => by_cases h : k = k' <;> simp [objSet, objGet, h]
  | cons kv rest ih =>
    obtain ⟨k0, v0⟩ := kv
    by_cases h0 : k0 = k
    · subst h0
      by_cases h : k0 = k' <;> simp [objSet, objGet, h]
    · by_cases h : k = k'
      · subst h
        simp [objSet, objGet, h0, ih, Ne.symm h0]
      · simp only [objSet, if_neg h0, objGet]
        by_cases h1 : k0 = k' <;> simp [h1, ih, h]

theorem objSet_of_not_mem {κ α : Type} [DecidableEq κ] (l : List (κ × α))
    (k : κ) (v : α) (h : k ∉ l.map Prod.fst) : objSet l k v = l ++ [(k, v)] := by
  induction l with
  | nil => simp [objSet]
  | cons kv rest ih =>
    simp only [List.map_cons, List.mem_cons] at h
    push_neg at h
    simp [objSet, Ne.symm h.1, ih h.2]

theorem foldl_objSet_objGet_of_not_mem {κ α β : Type} [DecidableEq κ]
    (f : β → α) (row : List (κ × β)) (base : List (κ × α)) (k : κ)
    (h : k ∉ row.map Prod.fst) :
    objGet (row.foldl (fun acc kv => objSet acc kv.1 (f kv.2)) base) k =
      objGet base k := by
  induction row generalizing base with
  | nil => rfl
  | cons kv rest ih =>
    simp only [List.map_cons, List.mem_cons] at h
    push_neg at h
    simp only [List.foldl_cons]
    rw [ih _ h.2, objGet_objSet, if_neg (Ne.symm h.1)]

theorem foldl_objSet_objGet_of_nodup {κ α β : Type} [DecidableEq κ]
    (f : β → α) (row : List (κ × β)) (base : List (κ × α)) (k : κ)
    (h : (row.map Prod.fst).Nodup) :
    objGet (row.foldl (fun acc kv => objSet acc kv.1 (f kv.2)) base) k =
      match objGet row k with
      | some v => some (f v)
      | none => objGet base k := by
  induction row generalizing base with
  | nil => rfl
  | cons kv rest ih =>
    obtain ⟨k0, v0⟩ := kv
    simp only [List.map_cons, List.nodup_cons] at h
    simp only [List.foldl_cons]
    by_cases hk : k0 = k
    · subst hk
      rw [foldl_objSet_objGet_of_not_mem _ _ _ _ h.1, objGet_objSet, if_pos rfl]
      simp [objGet]
    · rw [ih _ h.2]
      cases hrest : objGet rest k with
      | some v => simp [objGet, hk, hrest]
      | none => simp [objGet, hk, hrest, objGet_objSet]

theorem foldl_objSet_guard_eq_append {κ α : Type} [DecidableEq κ]
    (p : κ → Bool) (row : List (κ × α)) (base : List (κ × α))
    (hnodup : (row.map Prod.fst).Nodup)
    (hfresh : ∀ kv ∈ row, kv.1 ∉ base.map Prod.fst) :
    row.foldl (fun acc kv => if p kv.1 then objSet acc kv.1 kv.2 else acc) base =
      base ++ row.filter (fun kv => p kv.1) := by
  induction row generalizing base with
  | nil => simp
  | cons kv rest ih =>
    simp only [List.map_cons, List.nodup_cons] at hnodup
    simp only [List.foldl_cons, List.filter_cons]
    by_cases hp : p kv.1
    · rw [if_pos hp, if_pos hp,
        objSet_of_not_mem _ _ _ (hfresh kv (List.mem_cons_self kv rest)),
        ih _ hnodup.2, List.append_assoc]
      · simp
      · intro kv' hkv'
        simp only [List.map_append, List.mem_append, List.map_cons]
        push_neg
        refine ⟨hfresh kv' (List.mem_cons_of_mem kv hkv'), ?_⟩
        simp only [List.map_nil, List.mem_singleton]
        intro hcon
        exact hnodup.1 (hcon ▸ List.mem_map_of_mem Prod.fst hkv')
    · rw [if_neg hp, if_neg hp, ih _ hnodup.2]
      intro kv' hkv'
      exact hfresh kv' (List.mem_cons_of_mem kv hkv')

/-! ## Batch result row lemmas -/

theorem objGet_mkResultRow_rowIndex_absent (i : Nat) (row : List (String × String))
    (result : Outcome) (h : "_rowIndex" ∉ row.map Prod.fst) :
    objGet (mkResultRow i row result) "_rowIndex" = some (CellV.n (i + 1)) := by
  simp only [mkResultRow]
  rw [objGet_objSet, if_neg (by decide), objGet_objSet, if_neg (by decide),
    objGet_objSet, if_neg (by decide),
    foldl_objSet_objGet_of_not_mem CellV.s row _ _ h,
    objGet_objSet, if_pos rfl]

theorem objGet_mkResultRow_rowIndex_present (i : Nat) (row : List (String × String))
    (result : Outcome) (hnodup : (row.map Prod.fst).Nodup) (v : String)
    (hv : objGet row "_rowIndex" = some v) :
    objGet (mkResultRow i row result) "_rowIndex" = some (CellV.s v) := by
  simp only [mkResultRow]
  rw [objGet_objSet, if_neg (by decide), objGet_objSet, if_neg (by decide),
    objGet_objSet, if_neg (by decide),
    foldl_objSet_objGet_of_nodup CellV.s row _ _ hnodup, hv]

theorem runBatchAux_length (exec : Nat → Outcome) (n : Nat) :
    ∀ (rows : List (List (String × String))) (i : Nat),
      (runBatchAux exec n i rows).length = rows.length := by
  intro rows
  induction rows with
  | nil => intro i; rfl
  | cons row rest ih => intro i; simp [runBatchAux, ih]

theorem runBatchAux_rowIndex_map (exec : Nat → Outcome) (n : Nat) :
    ∀ (rows : List (List (String × String))) (i : Nat),
      (∀ r ∈ rows, "_rowIndex" ∉ r.map Prod.fst) →
      (runBatchAux exec n i rows).map (fun p => objGet p.1 "_rowIndex")
        = (List.range' (i + 1) rows.length).map (fun k => some (CellV.n k)) := by
  intro rows
  induction rows with
  | nil => intro i _; rfl
  | cons row rest ih =>
    intro i hfree
    simp only [runBatchAux, List.length_cons, List.range', List.map_cons]
    refine congrArg₂ _ ?_ ?_
    · exact objGet_mkResultRow_rowIndex_absent i row (exec i)
        (hfree row (List.mem_cons_self row rest))
    · have := ih (i + 1) (fun r hr => hfree r (List.mem_cons_of_mem row hr))
      simpa using this

theorem runBatchAux_progress_map (exec : Nat → Outcome) (n : Nat) :
    ∀ (rows : List (List (String × String))) (i : Nat),
      (runBatchAux exec n i rows).map Prod.snd
        = (List.range' (i + 1) rows.length).map (fun k => jsRound100 k n) := by
  intro rows
  induction rows with
  | nil => intro i; rfl
  | cons row rest ih =>
    intro i
    simp only [runBatchAux, List.length_cons, List.range', List.map_cons]
    refine congrArg₂ _ rfl ?_
    simpa using ih (i + 1)

/-! ## Claim theorems -/

/-- Claim C2 (code evaluation at the failing input): the claim states that a
doubled quote inside quoted content unescapes to exactly one literal quote,
so the line "a""b" (quoted) should parse to the single cell a"b.  The
scanner of parseLine never copies quote characters into the current cell
(the quote branch only toggles the flag), so the unescape replace at lines
43/50 operates on a quote-free string and is dead: the doubled quote
vanishes and the cell parses to ab.  The comma-inside-quotes conjunct of
the claim does hold, shown by the second equation. -/
theorem c2_doubled_quote_eval :
    parseLine ['"', 'a', '"', '"', 'b', '"'] = [['a', 'b']]
    ∧ parseLine ['"', 'a', ',', 'b', '"'] = [['a', ',', 'b']]
    ∧ (['a', 'b'] : List Char) ≠ ['a', '"', 'b'] := by decide

/-- Claim C1 (counterexample): roundtripping is not the identity on all
parse outputs.  The single header "a,b" (a quoted cell containing a comma)
parses to the header key a,b; serialization emits headers unescaped
(headers.join(',')), so re-parsing splits it into two headers a and b and
the cell values change. -/
theorem c1_counterexample :
    parseCSV ['"', 'a', ',', 'b', '"', '\n', 'x'] = [[(['a', ',', 'b'], ['x'])]]
    ∧ parseCSV (csvContent (parseCSV ['"', 'a', ',', 'b', '"', '\n', 'x']))
        = [[(['a'], ['x']), (['b'], [])]]
    ∧ parseCSV (csvContent (parseCSV ['"', 'a', ',', 'b', '"', '\n', 'x']))
        ≠ parseCSV ['"', 'a', ',', 'b', '"', '\n', 'x'] := by decide

/-- Claim C3 (counterexample): an endpoint catalogued from an uppercase
POST method key declares a request body, yet executeRequest attaches no
body, because line 314 compares the raw method key against the lowercase
list ['post','put','patch'].  The claim, which promises a body for POST
case-insensitively, fails on this endpoint. -/
theorem c3_counterexample :
    (buildEndpoints docUppercasePost).map Endpoint.method = ["POST"]
    ∧ (buildEndpoints docUppercasePost).map (fun e => e.requestBody.isSome) = [true]
    ∧ (buildEndpoints docUppercasePost).map
        (fun e => executeRequestBody e [("name", "Ann")]) = [none] := by decide

/-- Claim C3 (amended): a JSON request body is attached exactly when the
endpoint's method — the raw method key of the source document, not
uppercased or lowercased — is one of the lowercase strings post, put,
patch, and the endpoint declares a requestBody; for every other method (or
absent requestBody) no body is attached. -/
theorem c3_body_condition (endpoint : Endpoint) (data : List (String × String)) :
    (executeRequestBody endpoint data).isSome
      = (["post", "put", "patch"].contains endpoint.method
          && endpoint.requestBody.isSome) := by
  unfold executeRequestBody
  by_cases hc : (["post", "put", "patch"].contains endpoint.method
      && endpoint.requestBody.isSome) = true
  · rw [if_pos hc, hc]; rfl
  · rw [if_neg hc, Bool.eq_false_iff.mpr hc]; rfl

/-- Claim C4 (counterexample): q is not the name of a path parameter of the
endpoint and no body fields were resolved, so by the claim the body should
contain the key q; the code excludes it, because line 316 collects every
declared parameter name (query parameters included) into the exclusion
list. -/
theorem c4_counterexample :
    executeRequestBody epQueryParam [("q", "x"), ("extra", "y")]
        = some [("extra", "y")]
    ∧ (∀ p ∈ epQueryParam.parameters, ¬(p.«in» = some "path" ∧ p.name = "q"))
    ∧ bodyFieldNames epQueryParam = [] := by decide

/-- Claim C4 (amended): for a body-attaching method and declared request
body, the constructed body contains exactly those entries of the value
mapping whose key is (a) not the name of any declared parameter — path or
query — and (b) among the resolved body field names, or unrestricted when
no body fields were resolved at all; entries appear in the mapping's
order.  (The concrete case of the claim — fields name and age, values
name, age, id with id a path parameter — is the witness.) -/
theorem c4_body_keys (endpoint : Endpoint) (data : List (String × String))
    (hmethod : (["post", "put", "patch"].contains endpoint.method
        && endpoint.requestBody.isSome) = true)
    (hnodup : (data.map Prod.fst).Nodup) :
    executeRequestBody endpoint data
      = some (data.filter (fun kv => bodyKeyAllowed endpoint kv.1)) := by
  unfold executeRequestBody
  rw [if_pos hmethod]
  exact congrArg some
    (foldl_objSet_guard_eq_append (bodyKeyAllowed endpoint) data [] hnodup
      (by simp))

/-- Witness for c4_body_keys at the claim's concrete case: values
name/age/id with id a path parameter give the body exactly name and age. -/
theorem c4_body_keys_witness :
    executeRequestBody epNameAge [("name", "Ann"), ("age", "30"), ("id", "7")]
      = some [("name", "Ann"), ("age", "30")] := by
  rw [c4_body_keys epNameAge [("name", "Ann"), ("age", "30"), ("id", "7")]
    (by decide) (by decide)]
  decide

/-- Claim C5 (code evaluation at the failing input): the claim asserts that
an unparsable body falls back to the raw response text and never becomes a
transport failure.  In the program, res.json() consumes the body stream
even when parsing fails, so the res.text() in the inner catch (line 343)
rejects for every response that has a body; the exception reaches the outer
catch, which returns status 0 with the transport-error flag set.  A 200
response with the non-JSON body hello therefore yields status 0, success
false and isNetworkError true, with a TypeError message — not the raw text.
Only a null-body response (last conjunct) reaches the text fallback, with
the empty string. -/
theorem c5_fallback_eval :
    (executeRequestOutcome (fun _ => none) 5 (.ok ⟨200, false, "hello"⟩)).status = 0
    ∧ (executeRequestOutcome (fun _ => none) 5 (.ok ⟨200, false, "hello"⟩)).success = false
    ∧ (executeRequestOutcome (fun _ => none) 5 (.ok ⟨200, false, "hello"⟩)).isNetworkError = true
    ∧ (executeRequestOutcome (fun _ => none) 5 (.ok ⟨200, false, "hello"⟩)).data
        = BodyData.text bodyStreamReadMessage
    ∧ (executeRequestOutcome (fun _ => none) 5 (.ok ⟨204, true, ""⟩)).isNetworkError = false
    ∧ (executeRequestOutcome (fun _ => none) 5 (.ok ⟨204, true, ""⟩)).data
        = BodyData.text "" :=
  ⟨rfl, rfl, rfl, rfl, rfl, rfl⟩

/-- Claim C6 (code evaluation at the failing input): the claim asserts that
a completed 404 yields status 404 with the transport flag unset, and that
success is true iff the status is 2xx.  Because the failed res.json()
leaves the body stream consumed, a 404 whose body is plain text reaches the
outer catch: the program records status 0, success false and isNetworkError
true; and a 200 with a non-JSON body records success false despite its 2xx
status.  The genuinely-no-response conjunct of the claim does hold (last
three conjuncts). -/
theorem c6_classification_eval :
    (executeRequestOutcome (fun _ => none) 5 (.ok ⟨404, false, "Not Found"⟩)).status = 0
    ∧ (executeRequestOutcome (fun _ => none) 5 (.ok ⟨404, false, "Not Found"⟩)).isNetworkError = true
    ∧ (executeRequestOutcome (fun _ => none) 5 (.ok ⟨200, false, "egg"⟩)).success = false
    ∧ (executeRequestOutcome (fun _ => none) 5 (.error "net down")).status = 0
    ∧ (executeRequestOutcome (fun _ => none) 5 (.error "net down")).success = false
    ∧ (executeRequestOutcome (fun _ => none) 5 (.error "net down")).isNetworkError = true :=
  ⟨rfl, rfl, rfl, rfl, rfl, rfl⟩

/-- Claim C7 (counterexample): two conjuncts of the claim fail.  The
result-row indices are not always 1..n — a CSV column named _rowIndex is
spread over the object literal after the computed index and overwrites it,
so the first result row of the one-row batch carries the CSV string value,
not the index 1.  And the progress published after row 23 of a 40-row batch
is 57, because the double product (23/40)*100 is 57.49999999999999…, while
the claim's round(100*23/40) = round(57.5) is 58. -/
theorem c7_counterexample :
    (runBatchTest (fun _ => ⟨false, 0, 0, .text "x", true⟩)
        [[("_rowIndex", "99")]]).map (fun p => objGet p.1 "_rowIndex")
      = [some (CellV.s "99")]
    ∧ [some (CellV.s "99")] ≠ [some (CellV.n 1)]
    ∧ ((runBatchTest (fun _ => ⟨false, 0, 0, .text "x", true⟩)
        (List.replicate 40 [("a", "1")])).map Prod.snd).getD 22 0 = 57
    ∧ (57 : Nat) ≠ 58 := by decide

theorem rnePos_mul_self {n : Nat} (hpos : 0 < n) :
    rnePos (n * 2 ^ 52) n = 2 ^ 52 := by
  unfold rnePos
  rw [Nat.mul_mod_right, Nat.mul_div_cancel_left _ hpos]
  simp [hpos]

theorem floorLog2_self (n : Nat) : floorLog2 n n = 0 := by
  unfold floorLog2
  rw [sub_self]
  have hlt : ltPow2 n n 0 = false := by
    show decide (n < n * 2 ^ 0) = false
    simp
  rw [hlt]
  simp

theorem roundDoublePos_self {n : Nat} (hn : n ≠ 0) :
    roundDoublePos n n = (2 ^ 52, 0) := by
  unfold roundDoublePos
  rw [floorLog2_self n]
  show (rnePos (n * 2 ^ 52) n, (0 : Int)) = (2 ^ 52, 0)
  rw [rnePos_mul_self (Nat.pos_of_ne_zero hn)]

theorem jsRound100_self {n : Nat} (hn : n ≠ 0) : jsRound100 n n = 100 := by
  unfold jsRound100
  rw [if_neg (by simp [hn]), roundDoublePos_self hn]
  decide

/-- Claim C7 (amended): for every input sequence of n rows none of which
has a column named _rowIndex, the batch run produces exactly n result rows
whose 1-based indices are exactly 1..n in input order, whatever each row's
outcome; the progress published after row k is Math.round((k/n)*100)
computed in IEEE-754 double precision (jsRound100), which can differ by one
from exact rational rounding (after row 23 of 40 the program publishes 57,
not 58); the progress after the final row is exactly 100, since n/n rounds
to exactly 1 and 1*100 to exactly 100 in binary64. -/
theorem c7_batch_results (exec : Nat → Outcome)
    (rows : List (List (String × String)))
    (hfree : ∀ r ∈ rows, "_rowIndex" ∉ r.map Prod.fst) (hne : rows ≠ []) :
    (runBatchTest exec rows).length = rows.length
    ∧ (runBatchTest exec rows).map (fun p => objGet p.1 "_rowIndex")
        = (List.range' 1 rows.length).map (fun k => some (CellV.n k))
    ∧ (runBatchTest exec rows).map Prod.snd
        = (List.range' 1 rows.length).map (fun k => jsRound100 k rows.length)
    ∧ jsRound100 rows.length rows.length = 100 :=
  ⟨runBatchAux_length exec rows.length rows 0,
    runBatchAux_rowIndex_map exec rows.length rows 0 hfree,
    runBatchAux_progress_map exec rows.length rows 0,
    jsRound100_self (fun h => hne (List.length_eq_zero.mp h))⟩

/-- Witness for c7_batch_results: a three-row batch with an ordinary
column. -/
theorem c7_batch_results_witness :
    (runBatchTest (fun _ => ⟨false, 0, 0, .text "x", true⟩)
        [[("a", "1")], [("a", "2")], [("a", "3")]]).map Prod.snd
      = [33, 67, 100] := by
  have h := c7_batch_results (fun _ => ⟨false, 0, 0, .text "x", true⟩)
    [[("a", "1")], [("a", "2")], [("a", "3")]] (by decide) (by decide)
  rw [h.2.2.1]
  decide

/-- Claim C8: a malformed document (JSON.parse throws) or a document
without a paths object only records the error message — the thrown
message itself — and leaves the previously built catalog and the active
tab untouched; no partial catalog is built. -/
theorem c8_import_atomicity (st : AppState) (msg : String) (json : SpecDoc) :
    (handleSpecParse (.error msg) st).parsedSpec = st.parsedSpec
    ∧ (handleSpecParse (.error msg) st).error = msg
    ∧ (handleSpecParse (.error msg) st).activeTab = st.activeTab
    ∧ (json.paths = none →
        (handleSpecParse (.ok json) st).parsedSpec = st.parsedSpec
        ∧ (handleSpecParse (.ok json) st).error = missingPathsMessage
        ∧ (handleSpecParse (.ok json) st).activeTab = st.activeTab) := by
  refine ⟨rfl, rfl, rfl, fun h => ?_⟩
  simp [handleSpecParse, h]

/-- Witness for c8_import_atomicity: a document without paths leaves a
previously built catalog in place. -/
theorem c8_import_atomicity_witness :
    (handleSpecParse (.ok ⟨none, none, none, none⟩)
        ⟨some ⟨none, []⟩, "old error", "setup"⟩).parsedSpec = some ⟨none, []⟩
    ∧ (handleSpecParse (.ok ⟨none, none, none, none⟩)
        ⟨some ⟨none, []⟩, "old error", "setup"⟩).error = missingPathsMessage :=
  ⟨((c8_import_atomicity ⟨some ⟨none, []⟩, "old error", "setup"⟩ "m"
      ⟨none, none, none, none⟩).2.2.2 rfl).1,
   ((c8_import_atomicity ⟨some ⟨none, []⟩, "old error", "setup"⟩ "m"
      ⟨none, none, none, none⟩).2.2.2 rfl).2.1⟩

/-- Claim C10 (counterexample): the claim says a CSV column named by any of
the four reserved keys is overwritten by the execution outcome; for
_rowIndex the opposite happens — it is assigned before the row is spread,
so the CSV value 99 survives and the computed index 1 is lost. -/
theorem c10_counterexample :
    objGet (mkResultRow 0 [("_rowIndex", "99")] ⟨false, 0, 0, .text "x", true⟩)
        "_rowIndex" = some (CellV.s "99")
    ∧ some (CellV.s "99") ≠ some (CellV.n 1) := by decide

/-- Claim C10 (amended): a batch result row copies every original column
not named _rowIndex, _status, _success or _response unchanged; _status,
_success and _response are assigned after the copy and overwrite
same-named CSV columns with the execution outcome; _rowIndex is assigned
before the copy, so it holds the computed 1-based index only when the row
has no such column, and the CSV value otherwise. -/
theorem c10_result_row (i : Nat) (row : List (String × String)) (result : Outcome)
    (hnodup : (row.map Prod.fst).Nodup) :
    (∀ k, k ≠ "_rowIndex" → k ≠ "_status" → k ≠ "_success" → k ≠ "_response" →
      objGet (mkResultRow i row result) k = (objGet row k).map CellV.s)
    ∧ objGet (mkResultRow i row result) "_status" = some (CellV.n result.status)
    ∧ objGet (mkResultRow i row result) "_success"
        = some (CellV.s (if result.success then "PASS" else "FAIL"))
    ∧ objGet (mkResultRow i row result) "_response"
        = some (CellV.s (responseString result.data))
    ∧ ("_rowIndex" ∉ row.map Prod.fst →
        objGet (mkResultRow i row result) "_rowIndex" = some (CellV.n (i + 1)))
    ∧ (∀ v, objGet row "_rowIndex" = some v →
        objGet (mkResultRow i row result) "_rowIndex" = some (CellV.s v)) := by
  refine ⟨fun k h1 h2 h3 h4 => ?_, ?_, ?_, ?_,
    objGet_mkResultRow_rowIndex_absent i row result,
    fun v hv => objGet_mkResultRow_rowIndex_present i row result hnodup v hv⟩
  · simp only [mkResultRow]
    rw [objGet_objSet, if_neg (Ne.symm h4), objGet_objSet, if_neg (Ne.symm h3),
      objGet_objSet, if_neg (Ne.symm h2),
      foldl_objSet_objGet_of_nodup CellV.s row _ _ hnodup]
    cases hrow : objGet row k with
    | some v => rfl
    | none => rw [objGet_objSet, if_neg (Ne.symm h1)]; rfl
  · simp only [mkResultRow]
    rw [objGet_objSet, if_neg (by decide), objGet_objSet, if_neg (by decide),
      objGet_objSet, if_pos rfl]
  · simp only [mkResultRow]
    rw [objGet_objSet, if_neg (by decide), objGet_objSet, if_pos rfl]
  · simp only [mkResultRow]
    rw [objGet_objSet, if_pos rfl]

/-- Witness for c10_result_row: an ordinary column a survives next to the
reserved columns. -/
theorem c10_result_row_witness :
    objGet (mkResultRow 0 [("a", "1")] ⟨true, 200, 3, .text "ok", false⟩) "a"
      = some (CellV.s "1")
    ∧ objGet (mkResultRow 0 [("a", "1")] ⟨true, 200, 3, .text "ok", false⟩) "_success"
      = some (CellV.s "PASS") :=
  ⟨by
    have h := (c10_result_row 0 [("a", "1")] ⟨true, 200, 3, .text "ok", false⟩
      (by decide)).1 "a" (by decide) (by decide) (by decide) (by decide)
    rw [h]; decide,
   by
    have h := (c10_result_row 0 [("a", "1")] ⟨true, 200, 3, .text "ok", false⟩
      (by decide)).2.2.1
    rw [h]; rfl⟩

/-! ## Catalog id uniqueness (C9) -/

theorem verb_no_hyphen {m : String}
    (h : recognizedVerbs.contains (toLowerStr m) = true) : '-' ∉ m.data := by
  intro hmem
  have h2 : '-' ∈ (toLowerStr m).data := by
    have h1 := List.mem_map_of_mem Char.toLower hmem
    have hc : Char.toLower '-' = '-' := by decide
    rw [hc] at h1
    exact h1
  have h3 : toLowerStr m ∈ recognizedVerbs := by simpa using h
  simp only [recognizedVerbs, List.mem_cons, List.not_mem_nil, or_false] at h3
  rcases h3 with h3 | h3 | h3 | h3 | h3 <;> rw [h3] at h2 <;> revert h2 <;> decide

theorem append_hyphen_inj :
    ∀ (l1 r1 l2 r2 : List Char), '-' ∉ l1 → '-' ∉ l2 →
      l1 ++ '-' :: r1 = l2 ++ '-' :: r2 → l1 = l2 ∧ r1 = r2 := by
  intro l1
  induction l1 with
  | nil =>
    intro r1 l2 r2 _ h2 heq
    cases l2 with
    | nil => simpa using heq
    | cons c t =>
      simp only [List.nil_append, List.cons_append, List.cons.injEq] at heq
      refine absurd ?_ h2
      rw [← heq.1]
      exact List.mem_cons_self _ _
  | cons c t ih =>
    intro r1 l2 r2 h1 h2 heq
    cases l2 with
    | nil =>
      simp only [List.cons_append, List.nil_append, List.cons.injEq] at heq
      refine absurd ?_ h1
      rw [heq.1]
      exact List.mem_cons_self _ _
    | cons c' t' =>
      simp only [List.cons_append, List.cons.injEq] at heq
      have ht := ih r1 t' r2 (fun hm => h1 (List.mem_cons_of_mem c hm))
        (fun hm => h2 (List.mem_cons_of_mem c' hm)) heq.2
      exact ⟨by rw [heq.1, ht.1], ht.2⟩

theorem endpoint_id_inj (m1 p1 m2 p2 : String) (h1 : '-' ∉ m1.data)
    (h2 : '-' ∉ m2.data) (heq : m1 ++ "-" ++ p1 = m2 ++ "-" ++ p2) :
    m1 = m2 ∧ p1 = p2 := by
  have hd : m1.data ++ '-' :: p1.data = m2.data ++ '-' :: p2.data := by
    have h3 := congrArg String.data heq
    simpa [String.data_append] using h3
  obtain ⟨ha, hb⟩ := append_hyphen_inj m1.data p1.data m2.data p2.data h1 h2 hd
  constructor
  · cases m1; cases m2; exact congrArg String.mk (by simpa using ha)
  · cases p1; cases p2; exact congrArg String.mk (by simpa using hb)

theorem catalog_ids_nodup (json : SpecDoc) :
    ∀ (ps : List (String × List (String × Operation))),
      (ps.map Prod.fst).Nodup →
      (∀ pe ∈ ps, (pe.2.map Prod.fst).Nodup) →
      ((ps.flatMap (fun pe =>
          (pe.2.filter (fun mo => recognizedVerbs.contains (toLowerStr mo.1))).map
            (fun mo => mkEndpoint json pe.1 mo.1 mo.2))).map Endpoint.id).Nodup := by
  intro ps
  induction ps with
  | nil => intro _ _; simp
  | cons pe rest ih =>
    intro hnodup hmeth
    simp only [List.map_cons, List.nodup_cons] at hnodup
    simp only [List.flatMap_cons, List.map_append]
    refine List.Nodup.append ?_
      (ih hnodup.2 (fun pe' h' => hmeth pe' (List.mem_cons_of_mem pe h'))) ?_
    · have hfil : ((pe.2.filter
          (fun mo => recognizedVerbs.contains (toLowerStr mo.1))).map Prod.fst).Nodup :=
        List.Nodup.sublist (List.Sublist.map Prod.fst (List.filter_sublist pe.2))
          (hmeth pe (List.mem_cons_self pe rest))
      rw [List.map_map]
      have hdeq : (Endpoint.id ∘ fun mo => mkEndpoint json pe.1 mo.1 mo.2)
          = (fun m => m ++ "-" ++ pe.1) ∘ Prod.fst := rfl
      rw [hdeq, ← List.map_map]
      refine List.Nodup.map_on ?_ hfil
      intro m1 hm1 m2 hm2 hid
      obtain ⟨mo1, hmo1, rfl⟩ := List.mem_map.mp hm1
      obtain ⟨mo2, hmo2, rfl⟩ := List.mem_map.mp hm2
      have hq1 := (List.mem_filter.mp hmo1).2
      have hq2 := (List.mem_filter.mp hmo2).2
      exact (endpoint_id_inj mo1.1 pe.1 mo2.1 pe.1
        (verb_no_hyphen hq1) (verb_no_hyphen hq2) hid).1
    · intro x hx hx'
      simp only [List.map_map, List.mem_map, Function.comp] at hx
      obtain ⟨mo1, hmo1, hxid⟩ := hx
      obtain ⟨e, he, hxid'⟩ := List.mem_map.mp hx'
      obtain ⟨pe', hpe', hemem⟩ := List.mem_flatMap.mp he
      obtain ⟨mo2, hmo2, rfl⟩ := List.mem_map.mp hemem
      have hq1 := (List.mem_filter.mp hmo1).2
      have hq2 := (List.mem_filter.mp hmo2).2
      have hids : mo1.1 ++ "-" ++ pe.1 = mo2.1 ++ "-" ++ pe'.1 := by
        have h5 := hxid.trans hxid'.symm
        simpa [mkEndpoint] using h5
      have hinj := endpoint_id_inj mo1.1 pe.1 mo2.1 pe'.1
        (verb_no_hyphen hq1) (verb_no_hyphen hq2) hids
      exact hnodup.1 (hinj.2 ▸ List.mem_map_of_mem Prod.fst hpe')

/-- Claim C9: for every valid spec document whose path keys are pairwise
distinct and whose per-path method keys are pairwise distinct (JS object
keys always are), the catalog builder emits exactly one descriptor per
(path, method-key) pair whose lowercased method key is a recognized verb,
in document order, and the emitted ids (methodKey-path) are pairwise
distinct: no recognized method key in any casing contains a hyphen, so the
id determines the pair. -/
theorem c9_catalog (json : SpecDoc)
    (ps : List (String × List (String × Operation)))
    (hpaths : json.paths = some ps)
    (hnodup : (ps.map Prod.fst).Nodup)
    (hmeth : ∀ pe ∈ ps, (pe.2.map Prod.fst).Nodup) :
    (buildEndpoints json).map (fun e => (e.path, e.method))
      = ps.flatMap (fun pe =>
          (pe.2.filter (fun mo => recognizedVerbs.contains (toLowerStr mo.1))).map
            (fun mo => (pe.1, mo.1)))
    ∧ ((buildEndpoints json).map Endpoint.id).Nodup := by
  constructor
  · rw [buildEndpoints, hpaths]
    simp only [Option.getD_some, List.map_flatMap, List.map_map]
    rfl
  · rw [buildEndpoints, hpaths]
    exact catalog_ids_nodup json ps hnodup hmeth

/-- Witness for c9_catalog: a two-path document with uppercase and
lowercase method keys and one unrecognized key. -/
theorem c9_catalog_witness :
    (buildEndpoints ⟨none, some
        [("/a", [("get", ⟨none, none, none, none⟩),
                 ("POST", ⟨none, none, none, none⟩),
                 ("trace", ⟨none, none, none, none⟩)]),
         ("/b", [("get", ⟨none, none, none, none⟩)])],
        none, none⟩).map (fun e => (e.path, e.method))
      = [("/a", "get"), ("/a", "POST"), ("/b", "get")]
    ∧ ((buildEndpoints ⟨none, some
        [("/a", [("get", ⟨none, none, none, none⟩),
                 ("POST", ⟨none, none, none, none⟩),
                 ("trace", ⟨none, none, none, none⟩)]),
         ("/b", [("get", ⟨none, none, none, none⟩)])],
        none, none⟩).map Endpoint.id).Nodup := by
  have h := c9_catalog ⟨none, some
      [("/a", [("get", ⟨none, none, none, none⟩),
               ("POST", ⟨none, none, none, none⟩),
               ("trace", ⟨none, none, none, none⟩)]),
       ("/b", [("get", ⟨none, none, none, none⟩)])],
      none, none⟩
    [("/a", [("get", ⟨none, none, none, none⟩),
             ("POST", ⟨none, none, none, none⟩),
             ("trace", ⟨none, none, none, none⟩)]),
     ("/b", [("get", ⟨none, none, none, none⟩)])]
    rfl (by decide) (by decide)
  refine ⟨h.1.trans (by decide), h.2⟩

/-! ## CSV round-trip, part 1: cell cleanup lemmas (C1) -/

theorem dropWhile_dropWhile (p : Char → Bool) (l : List Char) :
    (l.dropWhile p).dropWhile p = l.dropWhile p := by
  induction l with
  | nil => rfl
  | cons c t ih =>
    by_cases h : p c
    · simp [List.dropWhile_cons, h, ih]
    · simp [List.dropWhile_cons, h]

theorem dropWhile_head_false {p : Char → Bool} {c : Char} {t : List Char}
    (h : (c :: t).dropWhile p = c :: t) : p c = false := by
  by_contra hpc
  rw [Bool.not_eq_false] at hpc
  rw [List.dropWhile_cons, if_pos hpc] at h
  have h1 := (List.dropWhile_sublist (l := t) p).length_le
  have h2 := congrArg List.length h
  simp only [List.length_cons] at h2
  omega

theorem dropWhile_take_of_eq_self (p : Char → Bool) (l : List Char)
    (h : l.dropWhile p = l) (n : Nat) : (l.take n).dropWhile p = l.take n := by
  cases l with
  | nil => simp
  | cons c t =>
    cases n with
    | zero => simp
    | succ m =>
      have hc := dropWhile_head_false h
      simp [List.take_succ_cons, List.dropWhile_cons, hc]

theorem trimLeft_trimChars (l : List Char) : trimLeft (trimChars l) = trimChars l := by
  have hlt : (trimLeft l).dropWhile isWsChar = trimLeft l :=
    dropWhile_dropWhile isWsChar l
  obtain ⟨t, ht⟩ :=
    List.dropWhile_suffix (l := (trimLeft l).reverse) (p := isWsChar)
  have hu : ((trimLeft l).reverse.dropWhile isWsChar).reverse ++ t.reverse
      = trimLeft l := by
    have h2 := congrArg List.reverse ht
    simpa using h2
  have htake := (List.take_left
    ((trimLeft l).reverse.dropWhile isWsChar).reverse t.reverse).symm
  rw [hu] at htake
  show (trimChars l).dropWhile isWsChar = trimChars l
  unfold trimChars
  rw [htake]
  exact dropWhile_take_of_eq_self isWsChar (trimLeft l) hlt _

theorem trimChars_trimChars (l : List Char) : trimChars (trimChars l) = trimChars l := by
  have h1 : trimLeft (trimChars l) = trimChars l := trimLeft_trimChars l
  have h2 : (trimChars l).reverse.dropWhile isWsChar = (trimChars l).reverse := by
    unfold trimChars
    rw [List.reverse_reverse]
    exact dropWhile_dropWhile isWsChar (trimLeft l).reverse
  show ((trimLeft (trimChars l)).reverse.dropWhile isWsChar).reverse = trimChars l
  rw [h1, h2, List.reverse_reverse]

theorem mem_trimChars {c : Char} {l : List Char} (h : c ∈ trimChars l) : c ∈ l := by
  unfold trimChars trimLeft at h
  rw [List.mem_reverse] at h
  have h2 := (List.dropWhile_sublist isWsChar).subset h
  rw [List.mem_reverse] at h2
  exact (List.dropWhile_sublist isWsChar).subset h2

theorem dropLeadingQuote_of_not_mem {l : List Char} (h : '"' ∉ l) :
    dropLeadingQuote l = l := by
  cases l with
  | nil => rfl
  | cons c t =>
    have hc : c ≠ '"' := fun hc => h (hc ▸ List.mem_cons_self c t)
    simp [dropLeadingQuote, hc]

theorem stripOuterQuotes_of_not_mem {l : List Char} (h : '"' ∉ l) :
    stripOuterQuotes l = l := by
  unfold stripOuterQuotes
  rw [dropLeadingQuote_of_not_mem h]
  rw [dropLeadingQuote_of_not_mem (by simpa using h), List.reverse_reverse]

theorem unescapeQuotes_of_not_mem :
    ∀ {l : List Char}, '"' ∉ l → unescapeQuotes l = l
  | [], _ => rfl
  | [_], _ => rfl
  | c1 :: c2 :: rest, h => by
    have h1 : c1 ≠ '"' := fun hc => h (by simp [hc])
    have h2 : '"' ∉ c2 :: rest := fun hc => h (List.mem_cons_of_mem c1 hc)
    rw [unescapeQuotes, if_neg (fun hand => h1 hand.1),
      unescapeQuotes_of_not_mem h2]

theorem doubleQuotes_of_not_mem {l : List Char} (h : '"' ∉ l) :
    doubleQuotes l = l := by
  induction l with
  | nil => rfl
  | cons c t ih =>
    have hc : c ≠ '"' := fun hc => h (hc ▸ List.mem_cons_self c t)
    rw [doubleQuotes, if_neg hc, ih (fun hm => h (List.mem_cons_of_mem c hm))]

theorem mem_doubleQuotes {c : Char} {l : List Char} (h : c ∈ doubleQuotes l) :
    c = '"' ∨ c ∈ l := by
  induction l with
  | nil => simp [doubleQuotes] at h
  | cons c0 t ih =>
    rw [doubleQuotes] at h
    by_cases hc0 : c0 = '"'
    · rw [if_pos hc0] at h
      simp only [List.mem_cons] at h
      rcases h with h | h | h
      · exact Or.inl h
      · exact Or.inl h
      · rcases ih h with h' | h'
        · exact Or.inl h'
        · exact Or.inr (List.mem_cons_of_mem c0 h')
    · rw [if_neg hc0] at h
      simp only [List.mem_cons] at h
      rcases h with h | h
      · exact Or.inr (by simp [h])
      · rcases ih h with h' | h'
        · exact Or.inl h'
        · exact Or.inr (List.mem_cons_of_mem c0 h')

theorem cleanCell_eq_trim {cur : List Char} (h : '"' ∉ cur) :
    cleanCell cur = trimChars cur := by
  unfold cleanCell
  rw [stripOuterQuotes_of_not_mem (fun hm => h (mem_trimChars hm)),
    unescapeQuotes_of_not_mem (fun hm => h (mem_trimChars hm))]

theorem cleanCell_clean {cur : List Char} (hq : '"' ∉ cur) (hn : '\n' ∉ cur) :
    CleanVal (cleanCell cur) := by
  rw [cleanCell_eq_trim hq]
  exact ⟨fun hm => hq (mem_trimChars hm), fun hm => hn (mem_trimChars hm),
    trimChars_trimChars cur⟩

theorem cleanCell_of_clean {v : List Char} (hv : CleanVal v) : cleanCell v = v := by
  rw [cleanCell_eq_trim hv.1, hv.2.2]

/-! ## CSV round-trip, part 2: line scanner lemmas (C1) -/

theorem parseLineAux_quote (rest : List Char) (q : Bool) (cur : List Char) :
    parseLineAux ('"' :: rest) q cur = parseLineAux rest (!q) cur := by
  simp [parseLineAux]

theorem parseLineAux_comma (rest : List Char) (cur : List Char) :
    parseLineAux (',' :: rest) false cur
      = cleanCell cur :: parseLineAux rest false [] := by
  simp [parseLineAux]

theorem parseLineAux_append_plain (v : List Char)
    (h : ∀ c ∈ v, c ≠ '"' ∧ c ≠ ',') (rest : List Char) (q : Bool) :
    ∀ cur, parseLineAux (v ++ rest) q cur = parseLineAux rest q (cur ++ v) := by
  induction v with
  | nil => intro cur; simp
  | cons c t ih =>
    intro cur
    have hc := h c (List.mem_cons_self c t)
    simp only [List.cons_append]
    rw [parseLineAux, if_neg hc.1, if_neg (fun hand => hc.2 hand.1),
      ih (fun c' h' => h c' (List.mem_cons_of_mem c h')) (cur ++ [c]),
      List.append_assoc]
    rfl

theorem parseLineAux_append_inquote (v : List Char) (h : ∀ c ∈ v, c ≠ '"')
    (rest : List Char) :
    ∀ cur, parseLineAux (v ++ rest) true cur = parseLineAux rest true (cur ++ v) := by
  induction v with
  | nil => intro cur; simp
  | cons c t ih =>
    intro cur
    have hc := h c (List.mem_cons_self c t)
    simp only [List.cons_append]
    rw [parseLineAux, if_neg hc, if_neg (fun hand => Bool.noConfusion hand.2),
      ih (fun c' h' => h c' (List.mem_cons_of_mem c h')) (cur ++ [c]),
      List.append_assoc]
    rfl

theorem escapeCsv_no_comma {v : List Char} (hv : CleanVal v) (hc : ',' ∉ v) :
    escapeCsv (some v) = v := by
  show (if '"' ∈ v ∨ ',' ∈ v ∨ '\n' ∈ v then '"' :: (doubleQuotes v ++ ['"']) else v) = v
  rw [if_neg (fun h => h.elim hv.1 (fun h' => h'.elim hc hv.2.1))]

theorem escapeCsv_comma {v : List Char} (hv : CleanVal v) (hc : ',' ∈ v) :
    escapeCsv (some v) = '"' :: (v ++ ['"']) := by
  show (if '"' ∈ v ∨ ',' ∈ v ∨ '\n' ∈ v then '"' :: (doubleQuotes v ++ ['"']) else v)
    = '"' :: (v ++ ['"'])
  rw [if_pos (Or.inr (Or.inl hc)), doubleQuotes_of_not_mem hv.1]

theorem parseLineAux_escaped (v rest : List Char) (hv : CleanVal v) :
    parseLineAux (escapeCsv (some v) ++ rest) false [] = parseLineAux rest false v := by
  by_cases hc : ',' ∈ v
  · rw [escapeCsv_comma hv hc]
    show parseLineAux ('"' :: ((v ++ ['"']) ++ rest)) false [] = _
    rw [parseLineAux_quote]
    simp only [Bool.not_false]
    rw [List.append_assoc,
      parseLineAux_append_inquote v (fun c hc' he => hv.1 (he ▸ hc')) _ []]
    show parseLineAux ('"' :: rest) true v = _
    rw [parseLineAux_quote]
    simp only [Bool.not_true]
  · rw [escapeCsv_no_comma hv hc,
      parseLineAux_append_plain v
        (fun c h => ⟨fun he => hv.1 (he ▸ h), fun he => hc (he ▸ h)⟩) rest false []]
    rfl

theorem parseLine_join_escaped :
    ∀ (vs : List (List Char)), vs ≠ [] → (∀ v ∈ vs, CleanVal v) →
      parseLineAux (joinComma (vs.map (fun v => escapeCsv (some v)))) false [] = vs
  | [], h, _ => absurd rfl h
  | [v], _, hv => by
    have hcv := hv v (List.mem_cons_self v [])
    show parseLineAux (escapeCsv (some v)) false [] = [v]
    rw [← List.append_nil (escapeCsv (some v)), parseLineAux_escaped v [] hcv]
    show [cleanCell v] = [v]
    rw [cleanCell_of_clean hcv]
  | v :: v' :: vs, _, hv => by
    have hcv := hv v (List.mem_cons_self v (v' :: vs))
    show parseLineAux
      (escapeCsv (some v) ++ ',' :: joinComma ((v' :: vs).map (fun w => escapeCsv (some w))))
      false [] = v :: v' :: vs
    rw [parseLineAux_escaped v _ hcv, parseLineAux_comma, cleanCell_of_clean hcv]
    exact congrArg _ (parseLine_join_escaped (v' :: vs) (by simp)
      (fun w hw => hv w (List.mem_cons_of_mem v hw)))

theorem map_escapeCsv_eq_self {vs : List (List Char)}
    (h : ∀ v ∈ vs, CleanVal v ∧ ',' ∉ v) :
    vs.map (fun v => escapeCsv (some v)) = vs := by
  rw [List.map_congr_left (fun v hv => escapeCsv_no_comma (h v hv).1 (h v hv).2)]
  simp

/-! ## CSV round-trip, part 3: parse output invariants (C1) -/

theorem parseLineAux_values_clean :
    ∀ (line : List Char) (q : Bool) (cur : List Char),
      '\n' ∉ line → '"' ∉ cur → '\n' ∉ cur →
      ∀ v ∈ parseLineAux line q cur, CleanVal v
  | [], _, cur, _, hq, hn, v, hv => by
    rw [parseLineAux] at hv
    simp only [List.mem_singleton] at hv
    exact hv ▸ cleanCell_clean hq hn
  | c :: rest, q, cur, hline, hq, hn, v, hv => by
    have hrest : '\n' ∉ rest := fun h => hline (List.mem_cons_of_mem c h)
    by_cases hc : c = '"'
    · rw [parseLineAux, if_pos hc] at hv
      exact parseLineAux_values_clean rest (!q) cur hrest hq hn v hv
    · by_cases hcomma : c = ',' ∧ q = false
      · rw [parseLineAux, if_neg hc, if_pos hcomma] at hv
        simp only [List.mem_cons] at hv
        rcases hv with hv | hv
        · exact hv ▸ cleanCell_clean hq hn
        · exact parseLineAux_values_clean rest q [] hrest (by simp) (by simp) v hv
      · rw [parseLineAux, if_neg hc, if_neg hcomma] at hv
        have hcn : c ≠ '\n' := fun h => hline (h ▸ List.mem_cons_self c rest)
        refine parseLineAux_values_clean rest q (cur ++ [c]) hrest ?_ ?_ v hv
        · intro h
          rcases List.mem_append.mp h with h | h
          · exact hq h
          · exact hc (List.mem_singleton.mp h).symm
        · intro h
          rcases List.mem_append.mp h with h | h
          · exact hn h
          · exact hcn (List.mem_singleton.mp h).symm

theorem parseLine_values_clean {line : List Char} (hline : '\n' ∉ line) :
    ∀ v ∈ parseLine line, CleanVal v :=
  parseLineAux_values_clean line false [] hline (by simp) (by simp)

theorem objGet_cons_self {κ α : Type} [DecidableEq κ] (k : κ) (v : α)
    (rest : List (κ × α)) : objGet ((k, v) :: rest) k = some v := by
  simp [objGet]

theorem objGet_cons_ne {κ α : Type} [DecidableEq κ] {k0 k : κ} (v0 : α)
    (rest : List (κ × α)) (h : k0 ≠ k) :
    objGet ((k0, v0) :: rest) k = objGet rest k := by
  simp [objGet, h]

theorem mem_objSet {κ α : Type} [DecidableEq κ] :
    ∀ {l : List (κ × α)} {k : κ} {v : α} {kv : κ × α},
      kv ∈ objSet l k v → kv ∈ l ∨ kv = (k, v)
  | [], k, v, kv, h => by
    rw [objSet] at h
    exact Or.inr (List.mem_singleton.mp h)
  | (k0, v0) :: rest, k, v, kv, h => by
    rw [objSet] at h
    by_cases h0 : k0 = k
    · rw [if_pos h0] at h
      rcases List.mem_cons.mp h with h | h
      · exact Or.inr h
      · exact Or.inl (List.mem_cons_of_mem _ h)
    · rw [if_neg h0] at h
      rcases List.mem_cons.mp h with h | h
      · exact Or.inl (h ▸ List.mem_cons_self _ _)
      · rcases mem_objSet h with h | h
        · exact Or.inl (List.mem_cons_of_mem _ h)
        · exact Or.inr h

theorem map_fst_objSet {κ α : Type} [DecidableEq κ] :
    ∀ (l : List (κ × α)) (k : κ) (v : α),
      (objSet l k v).map Prod.fst =
        if k ∈ l.map Prod.fst then l.map Prod.fst else l.map Prod.fst ++ [k]
  | [], k, v => by simp [objSet]
  | (k0, v0) :: rest, k, v => by
    by_cases h0 : k0 = k
    · subst h0
      simp [objSet]
    · rw [objSet, if_neg h0]
      simp only [List.map_cons, map_fst_objSet rest k v]
      by_cases hm : k ∈ rest.map Prod.fst
      · rw [if_pos hm, if_pos (List.mem_cons_of_mem _ hm)]
      · rw [if_neg hm, if_neg (fun hmem => by
          rcases List.mem_cons.mp hmem with h | h
          · exact h0 h.symm
          · exact hm h)]
        simp

theorem map_fst_objSet_nodup {κ α : Type} [DecidableEq κ] (l : List (κ × α))
    (k : κ) (v : α) (h : (l.map Prod.fst).Nodup) :
    ((objSet l k v).map Prod.fst).Nodup := by
  rw [map_fst_objSet]
  by_cases hm : k ∈ l.map Prod.fst
  · rw [if_pos hm]; exact h
  · rw [if_neg hm]
    refine List.Nodup.append h (List.nodup_singleton k) ?_
    intro a ha ha'
    exact hm ((List.mem_singleton.mp ha') ▸ ha)

theorem buildRowObj_map_fst :
    ∀ (hs : List (List Char)) (vs vs' : List (List Char)) (obj obj' : CsvRow),
      obj.map Prod.fst = obj'.map Prod.fst →
      (buildRowObj hs vs obj).map Prod.fst = (buildRowObj hs vs' obj').map Prod.fst
  | [], _, _, _, _, h => h
  | h0 :: hs, vs, vs', obj, obj', h => by
    rw [buildRowObj, buildRowObj]
    exact buildRowObj_map_fst hs vs.tail vs'.tail _ _
      (by rw [map_fst_objSet, map_fst_objSet, h])

theorem buildRowObj_nodup :
    ∀ (hs : List (List Char)) (vs : List (List Char)) (obj : CsvRow),
      (obj.map Prod.fst).Nodup → ((buildRowObj hs vs obj).map Prod.fst).Nodup
  | [], _, _, h => h
  | h0 :: hs, vs, obj, h => by
    rw [buildRowObj]
    exact buildRowObj_nodup hs vs.tail _ (map_fst_objSet_nodup _ _ _ h)

theorem buildRowObj_values_clean :
    ∀ (hs : List (List Char)) (vs : List (List Char)) (obj : CsvRow),
      (∀ v ∈ vs, CleanVal v) → (∀ kv ∈ obj, CleanVal kv.2) →
      ∀ kv ∈ buildRowObj hs vs obj, CleanVal kv.2
  | [], _, _, _, hobj, kv, hkv => hobj kv hkv
  | h0 :: hs, vs, obj, hvs, hobj, kv, hkv => by
    rw [buildRowObj] at hkv
    refine buildRowObj_values_clean hs vs.tail _
      (fun v hv => hvs v (List.mem_of_mem_tail hv)) ?_ kv hkv
    intro kv' hkv'
    rcases mem_objSet hkv' with h | h
    · exact hobj kv' h
    · rw [h]
      cases vs with
      | nil => exact ⟨by simp, by simp, rfl⟩
      | cons v vs' => exact hvs v (List.mem_cons_self v vs')

theorem buildRowObj_keys_from :
    ∀ (hs : List (List Char)) (vs : List (List Char)) (obj : CsvRow)
      (k : List Char), k ∈ (buildRowObj hs vs obj).map Prod.fst →
      k ∈ obj.map Prod.fst ∨ ∃ h ∈ hs, k = cleanKey h
  | [], _, _, _, h => Or.inl h
  | h0 :: hs, vs, obj, k, h => by
    rw [buildRowObj] at h
    rcases buildRowObj_keys_from hs vs.tail _ k h with h | h
    · rw [map_fst_objSet] at h
      by_cases hm : cleanKey h0 ∈ obj.map Prod.fst
      · rw [if_pos hm] at h
        exact Or.inl h
      · rw [if_neg hm] at h
        rcases List.mem_append.mp h with h | h
        · exact Or.inl h
        · exact Or.inr ⟨h0, List.mem_cons_self h0 hs, List.mem_singleton.mp h⟩
    · obtain ⟨h1, hh1, hk⟩ := h
      exact Or.inr ⟨h1, List.mem_cons_of_mem h0 hh1, hk⟩

theorem cleanKey_of_clean {h : List Char} (hh : CleanVal h) : cleanKey h = h := by
  unfold cleanKey
  rw [stripOuterQuotes_of_not_mem hh.1, hh.2.2]

/-! ## CSV round-trip, part 4: line splitting lemmas (C1) -/

theorem splitChar_ne_nil (sep : Char) : ∀ (text : List Char), splitChar sep text ≠ []
  | [] => by simp [splitChar]
  | c :: rest => by
    rw [splitChar]
    by_cases hc : c = sep
    · rw [if_pos hc]; simp
    · rw [if_neg hc]
      cases h : splitChar sep rest with
      | nil => exact absurd h (splitChar_ne_nil sep rest)
      | cons hd tl => simp [List.modifyHead]

theorem not_mem_of_mem_splitChar (sep : Char) :
    ∀ (text : List Char) (l : List Char), l ∈ splitChar sep text → sep ∉ l
  | [], l, h => by
    simp only [splitChar, List.mem_singleton] at h
    simp [h]
  | c :: rest, l, h => by
    rw [splitChar] at h
    by_cases hc : c = sep
    · rw [if_pos hc] at h
      rcases List.mem_cons.mp h with h | h
      · simp [h]
      · exact not_mem_of_mem_splitChar sep rest l h
    · rw [if_neg hc] at h
      cases hsp : splitChar sep rest with
      | nil => exact absurd hsp (splitChar_ne_nil sep rest)
      | cons hd tl =>
        rw [hsp] at h
        simp only [List.modifyHead, List.mem_cons] at h
        rcases h with h | h
        · rw [h]
          intro hmem
          rcases List.mem_cons.mp hmem with h' | h'
          · exact hc h'.symm
          · exact not_mem_of_mem_splitChar sep rest hd
              (hsp ▸ List.mem_cons_self hd tl) h'
        · exact not_mem_of_mem_splitChar sep rest l (hsp ▸ List.mem_cons_of_mem hd h)

theorem splitChar_single {sep : Char} : ∀ {l : List Char}, sep ∉ l →
    splitChar sep l = [l]
  | [], _ => rfl
  | c :: t, h => by
    have hc : c ≠ sep := fun he => h (he ▸ List.mem_cons_self c t)
    rw [splitChar, if_neg hc, splitChar_single (fun hm => h (List.mem_cons_of_mem c hm))]
    rfl

theorem splitChar_append {sep : Char} : ∀ {l : List Char} (rest : List Char),
    sep ∉ l → splitChar sep (l ++ sep :: rest) = l :: splitChar sep rest
  | [], rest, _ => by
    rw [List.nil_append, splitChar, if_pos rfl]
  | c :: t, rest, h => by
    have hc : c ≠ sep := fun he => h (he ▸ List.mem_cons_self c t)
    rw [List.cons_append, splitChar, if_neg hc,
      splitChar_append rest (fun hm => h (List.mem_cons_of_mem c hm))]
    rfl

theorem splitChar_joinSep (sep : Char) :
    ∀ (ls : List (List Char)), ls ≠ [] → (∀ l ∈ ls, sep ∉ l) →
      splitChar sep (joinSep sep ls) = ls
  | [], h, _ => absurd rfl h
  | [l], _, hl => by
    rw [joinSep]
    exact splitChar_single (hl l (List.mem_cons_self l []))
  | l :: l' :: ls, _, hl => by
    show splitChar sep (l ++ sep :: joinSep sep (l' :: ls)) = _
    rw [splitChar_append _ (hl l (List.mem_cons_self l (l' :: ls))),
      splitChar_joinSep sep (l' :: ls) (by simp)
        (fun w hw => hl w (List.mem_cons_of_mem l hw))]

/-! ## CSV round-trip, part 5: row reconstruction (C1) -/

theorem map_objGet_eq_map_snd {α : Type} (f : Option (List Char) → α) :
    ∀ (r : CsvRow), (r.map Prod.fst).Nodup →
      (r.map Prod.fst).map (fun h => f (objGet r h))
        = (r.map Prod.snd).map (fun v => f (some v))
  | [], _ => rfl
  | (k, v) :: rest, hnodup => by
    simp only [List.map_cons] at hnodup ⊢
    rw [List.nodup_cons] at hnodup
    rw [objGet_cons_self]
    refine congrArg₂ _ rfl ?_
    rw [List.map_congr_left (fun h hh =>
      congrArg f (objGet_cons_ne v rest (fun he => hnodup.1 (by rw [he]; exact hh))))]
    exact map_objGet_eq_map_snd f rest hnodup.2

theorem buildRowObj_fresh :
    ∀ (ks vs : List (List Char)) (obj : CsvRow),
      (ks.map cleanKey).Nodup →
      (∀ k ∈ ks, cleanKey k ∉ obj.map Prod.fst) →
      buildRowObj ks vs obj = obj ++ mkPairs ks vs
  | [], vs, obj, _, _ => by simp [buildRowObj, mkPairs]
  | k :: ks, vs, obj, hnodup, hfresh => by
    simp only [List.map_cons, List.nodup_cons] at hnodup
    have hfresh' : ∀ k' ∈ ks,
        cleanKey k' ∉ (obj ++ [(cleanKey k, vs.headD [])]).map Prod.fst := by
      intro k' hk' hmem
      rw [List.map_append] at hmem
      rcases List.mem_append.mp hmem with h | h
      · exact hfresh k' (List.mem_cons_of_mem k hk') h
      · simp only [List.map_cons, List.map_nil, List.mem_singleton] at h
        exact hnodup.1 (h ▸ List.mem_map_of_mem cleanKey hk')
    rw [buildRowObj, mkPairs,
      objSet_of_not_mem _ _ _ (hfresh k (List.mem_cons_self k ks)),
      buildRowObj_fresh ks vs.tail _ hnodup.2 hfresh', List.append_assoc]
    rfl

theorem mkPairs_self :
    ∀ (r : CsvRow), (∀ k ∈ r.map Prod.fst, cleanKey k = k) →
      mkPairs (r.map Prod.fst) (r.map Prod.snd) = r
  | [], _ => rfl
  | (k, v) :: rest, h => by
    simp only [List.map_cons]
    rw [mkPairs, h k (by simp)]
    exact congrArg _ (mkPairs_self rest (fun k' h' => h k' (List.mem_cons_of_mem _ h')))

/-! ## CSV round-trip, part 6: serialized content lemmas (C1) -/

theorem mem_joinSep {c sep : Char} :
    ∀ {ls : List (List Char)}, c ∈ joinSep sep ls → c = sep ∨ ∃ l ∈ ls, c ∈ l
  | [], h => by simp [joinSep] at h
  | [l], h => Or.inr ⟨l, by simp, h⟩
  | l :: l' :: ls, h => by
    have h0 : c ∈ l ++ sep :: joinSep sep (l' :: ls) := h
    rcases List.mem_append.mp h0 with h1 | h1
    · exact Or.inr ⟨l, by simp, h1⟩
    · rcases List.mem_cons.mp h1 with h2 | h2
      · exact Or.inl h2
      · rcases mem_joinSep h2 with h3 | ⟨w, hw, hcw⟩
        · exact Or.inl h3
        · exact Or.inr ⟨w, List.mem_cons_of_mem l hw, hcw⟩

theorem mem_escapeCsv_some {c : Char} {v : List Char}
    (h : c ∈ escapeCsv (some v)) : c = '"' ∨ c ∈ v := by
  have h' : c ∈ (if '"' ∈ v ∨ ',' ∈ v ∨ '\n' ∈ v
      then '"' :: (doubleQuotes v ++ ['"']) else v) := h
  by_cases hcond : '"' ∈ v ∨ ',' ∈ v ∨ '\n' ∈ v
  · rw [if_pos hcond] at h'
    rcases List.mem_cons.mp h' with h'' | h''
    · exact Or.inl h''
    · rcases List.mem_append.mp h'' with h3 | h3
      · exact mem_doubleQuotes h3
      · exact Or.inl (List.mem_singleton.mp h3)
  · rw [if_neg hcond] at h'
    exact Or.inr h'

theorem objGet_mem_keys {κ α : Type} [DecidableEq κ] :
    ∀ {r : List (κ × α)} {k : κ}, k ∈ r.map Prod.fst →
      ∃ v, objGet r k = some v ∧ (k, v) ∈ r
  | [], k, h => by simp at h
  | (k0, v0) :: rest, k, h => by
    by_cases h0 : k0 = k
    · subst h0
      exact ⟨v0, objGet_cons_self k0 v0 rest, List.mem_cons_self _ _⟩
    · have hk : k ∈ rest.map Prod.fst := by
        simp only [List.map_cons, List.mem_cons] at h
        rcases h with h | h
        · exact absurd h.symm h0
        · exact h
      obtain ⟨v, hv, hmem⟩ := objGet_mem_keys hk
      exact ⟨v, by rw [objGet_cons_ne v0 rest h0]; exact hv,
        List.mem_cons_of_mem _ hmem⟩

theorem parseLine_join_escaped' (vs : List (List Char)) (hne : vs ≠ [])
    (hv : ∀ v ∈ vs, CleanVal v) :
    parseLine (joinComma (vs.map (fun v => escapeCsv (some v)))) = vs :=
  parseLine_join_escaped vs hne hv

/-- Claim C1 (amended): serialize-then-parse is the identity on the output
of Parse provided (a) no header contains a comma (serialization emits
headers unescaped), (b) the serialized header line is not blank, and (c) no
serialized data line is blank (blank lines are dropped on re-parse).  Cell
values containing commas survive the re-quoting; parsed cell values never
contain quotes or newlines, since the scanner drops quote characters and
the text is split at newlines first. -/
theorem c1_roundtrip (text : List Char) (r0 : CsvRow) (rs : List CsvRow)
    (hparse : parseCSV text = r0 :: rs)
    (hheads : ∀ h ∈ r0.map Prod.fst, ',' ∉ h)
    (hheadline : trimChars (joinComma (r0.map Prod.fst)) ≠ [])
    (hlines : ∀ r ∈ r0 :: rs,
      trimChars (joinComma ((r0.map Prod.fst).map
        (fun h => escapeCsv (objGet r h)))) ≠ []) :
    parseCSV (csvContent (r0 :: rs)) = r0 :: rs := by
  cases hcl : csvLines text with
  | nil =>
    unfold parseCSV parseRows at hparse
    rw [hcl] at hparse
    exact absurd hparse (by simp)
  | cons first rest =>
    have hparse' : rest.map
        (fun line => buildRowObj (parseLine first) (parseLine line) [])
        = r0 :: rs := by
      have h1 := hparse
      unfold parseCSV at h1
      rw [hcl] at h1
      simpa [parseRows] using h1
    have hfl : ∀ l ∈ csvLines text, '\n' ∉ l := fun l hl =>
      not_mem_of_mem_splitChar '\n' text l (List.mem_of_mem_filter hl)
    have hH' : ∀ h ∈ parseLine first, CleanVal h :=
      parseLine_values_clean (hfl first (by rw [hcl]; exact List.mem_cons_self _ _))
    have hrep : ∀ r ∈ r0 :: rs, ∃ vs, (∀ v ∈ vs, CleanVal v) ∧
        r = buildRowObj (parseLine first) vs [] := by
      intro r hr
      rw [← hparse'] at hr
      obtain ⟨line, hline, hFr⟩ := List.mem_map.mp hr
      have hnl : '\n' ∉ line :=
        hfl line (by rw [hcl]; exact List.mem_cons_of_mem first hline)
      exact ⟨parseLine line, parseLine_values_clean hnl, hFr.symm⟩
    obtain ⟨vs0, hvs0clean, hr0eq⟩ := hrep r0 (List.mem_cons_self r0 rs)
    have hKnodup : (r0.map Prod.fst).Nodup := by
      rw [hr0eq]
      exact buildRowObj_nodup _ _ [] (by simp)
    have hKclean : ∀ k ∈ r0.map Prod.fst, CleanVal k := by
      intro k hk
      rw [hr0eq] at hk
      rcases buildRowObj_keys_from _ _ _ _ hk with h | ⟨h1, hh1, hkck⟩
      · simp at h
      · rw [hkck, cleanKey_of_clean (hH' h1 hh1)]
        exact hH' h1 hh1
    have hKne : r0.map Prod.fst ≠ [] := by
      intro h
      apply hheadline
      rw [h]
      rfl
    have hkeysr : ∀ r ∈ r0 :: rs, r.map Prod.fst = r0.map Prod.fst := by
      intro r hr
      obtain ⟨vs, _, hre⟩ := hrep r hr
      rw [hre, hr0eq]
      exact buildRowObj_map_fst _ vs vs0 [] [] rfl
    have hvals : ∀ r ∈ r0 :: rs, ∀ kv ∈ r, CleanVal kv.2 := by
      intro r hr
      obtain ⟨vs, hvs, hre⟩ := hrep r hr
      rw [hre]
      exact buildRowObj_values_clean _ vs [] hvs (by simp)
    -- the serialized lines
    have hcontent : csvContent (r0 :: rs) = joinSep '\n'
        (joinComma (r0.map Prod.fst) :: (r0 :: rs).map
          (fun row => joinComma ((r0.map Prod.fst).map
            (fun h => escapeCsv (objGet row h))))) := rfl
    have hnonl : ∀ l ∈ joinComma (r0.map Prod.fst) :: (r0 :: rs).map
        (fun row => joinComma ((r0.map Prod.fst).map
          (fun h => escapeCsv (objGet row h)))), '\n' ∉ l := by
      intro l hl
      rcases List.mem_cons.mp hl with h | h
      · rw [h]
        intro hmem
        rcases mem_joinSep hmem with h1 | ⟨k, hk, hck⟩
        · exact absurd h1 (by decide)
        · exact (hKclean k hk).2.1 hck
      · obtain ⟨r, hr, hrl⟩ := List.mem_map.mp h
        rw [← hrl]
        intro hmem
        rcases mem_joinSep hmem with h1 | ⟨cell, hcell, hccell⟩
        · exact absurd h1 (by decide)
        · obtain ⟨k, hk, hkcell⟩ := List.mem_map.mp hcell
          rw [← hkcell] at hccell
          rw [← hkeysr r hr] at hk
          obtain ⟨v, hv, hvm⟩ := objGet_mem_keys hk
          rw [hv] at hccell
          rcases mem_escapeCsv_some hccell with h2 | h2
          · exact absurd h2 (by decide)
          · exact (hvals r hr (k, v) hvm).2.1 h2
    have hsplit : splitNl (csvContent (r0 :: rs)) = joinComma (r0.map Prod.fst)
        :: (r0 :: rs).map (fun row => joinComma ((r0.map Prod.fst).map
          (fun h => escapeCsv (objGet row h)))) := by
      show splitChar '\n' (csvContent (r0 :: rs)) = _
      rw [hcontent]
      exact splitChar_joinSep '\n' _ (by simp) hnonl
    have hfilter : csvLines (csvContent (r0 :: rs)) = joinComma (r0.map Prod.fst)
        :: (r0 :: rs).map (fun row => joinComma ((r0.map Prod.fst).map
          (fun h => escapeCsv (objGet row h)))) := by
      unfold csvLines
      rw [hsplit]
      apply List.filter_eq_self.mpr
      intro l hl
      rcases List.mem_cons.mp hl with h | h
      · rw [h]
        simp [List.isEmpty_iff, hheadline]
      · obtain ⟨r, hr, hrl⟩ := List.mem_map.mp h
        rw [← hrl]
        have h5 := hlines r hr
        rw [List.map_map] at h5
        simp [List.isEmpty_iff, h5]
    have hheader : parseLine (joinComma (r0.map Prod.fst)) = r0.map Prod.fst := by
      have hmape : (r0.map Prod.fst).map (fun v => escapeCsv (some v))
          = r0.map Prod.fst :=
        map_escapeCsv_eq_self (fun k hk => ⟨hKclean k hk, hheads k hk⟩)
      conv_lhs => rw [← hmape]
      exact parseLine_join_escaped' _ hKne hKclean
    have hpoint : ∀ r ∈ r0 :: rs, buildRowObj (r0.map Prod.fst)
        (parseLine (joinComma ((r0.map Prod.fst).map
          (fun h => escapeCsv (objGet r h))))) [] = r := by
      intro r hr
      have hkr := hkeysr r hr
      have hnodupr : (r.map Prod.fst).Nodup := by rw [hkr]; exact hKnodup
      have hdl : (r0.map Prod.fst).map (fun h => escapeCsv (objGet r h))
          = (r.map Prod.snd).map (fun v => escapeCsv (some v)) := by
        rw [← hkr]
        exact map_objGet_eq_map_snd escapeCsv r hnodupr
      rw [hdl]
      have hvclean : ∀ v ∈ r.map Prod.snd, CleanVal v := by
        intro v hv
        obtain ⟨kv, hkv, hkveq⟩ := List.mem_map.mp hv
        rw [← hkveq]
        exact hvals r hr kv hkv
      have hsne : r.map Prod.snd ≠ [] := by
        intro h
        apply hKne
        rw [← hkr, List.map_eq_nil_iff.mp h]
        rfl
      rw [parseLine_join_escaped' (r.map Prod.snd) hsne hvclean, ← hkr]
      have hckid : ∀ k ∈ r.map Prod.fst, cleanKey k = k := by
        intro k hk
        refine cleanKey_of_clean (hKclean k ?_)
        rw [← hkr]
        exact hk
      have hcknodup : ((r.map Prod.fst).map cleanKey).Nodup := by
        rw [List.map_congr_left hckid]
        simpa using hnodupr
      rw [buildRowObj_fresh (r.map Prod.fst) (r.map Prod.snd) [] hcknodup (by simp),
        List.nil_append]
      exact mkPairs_self r hckid
    unfold parseCSV
    rw [hfilter]
    simp only [parseRows, hheader]
    rw [List.map_map]
    show List.map (fun r => buildRowObj (r0.map Prod.fst)
      (parseLine (joinComma ((r0.map Prod.fst).map
        (fun h => escapeCsv (objGet r h))))) []) (r0 :: rs) = r0 :: rs
    rw [List.map_congr_left hpoint]
    simp

/-- Witness for c1_roundtrip: the two-line text h\nv round-trips. -/
theorem c1_roundtrip_witness :
    parseCSV ['h', '\n', 'v'] = [[(['h'], ['v'])]]
    ∧ parseCSV (csvContent [[(['h'], ['v'])]]) = [[(['h'], ['v'])]] :=
  ⟨by decide, c1_roundtrip ['h', '\n', 'v'] [(['h'], ['v'])] []
    (by decide) (by decide) (by decide) (by decide)⟩

end ApiTestPortal
